import Mathlib

/-!
Verification of the distributed snapshot-serving subsystem of tangos
(`tangos.parallel_tasks.pynbody_server` and its companions).

The implementation modules themselves (message framing, shared array
transfer, snapshot queue, remote view, portable object catalogue) are not
part of the source tree given here — only their test suite
(`tests/test_pynbody_server.py`) is.  Every operation below is therefore
modelled from the specification text, as a shallow embedding: byte payloads
become `List Nat`, numeric arrays become `List Int`, shared-memory segments
become a name-indexed store threaded explicitly, and the transport becomes
pure payload passing with an explicit operation counter.
-/

namespace Tangos

/-! ## Payload encoding primitives

Modelled from the spec: the wire formats of §6 — fixed-width integer
encoding for catalogue payloads, dtype/shape/raw-bytes for arrays, UTF-8
names for shared segments.  A payload is a `List Nat` of byte-like tokens;
integers are encoded with an explicit sign fold, strings as a length
prefix followed by character codes. -/

/-- Encode an integer into a single non-negative token (sign-fold / zigzag). -/
def encInt (i : Int) : Nat :=
  if 0 ≤ i then 2 * i.toNat else 2 * (-i).toNat - 1

/-- Decode a sign-folded token back to an integer. -/
def decInt (n : Nat) : Int :=
  if n % 2 = 0 then ((n / 2 : Nat) : Int) else -(((n + 1) / 2 : Nat) : Int)

theorem decInt_encInt (i : Int) : decInt (encInt i) = i := by
  unfold decInt encInt
  rcases le_or_lt 0 i with h | h
  · rw [if_pos h, if_pos (by omega)]
    omega
  · rw [if_neg (not_le.mpr h), if_neg (by omega)]
    omega

/-- Encode a string as a length prefix followed by its character codes. -/
def encString (s : String) : List Nat :=
  s.length :: s.data.map Char.toNat

/-- Decode a length-prefixed string from the front of a payload, returning
the string and the unconsumed remainder. -/
def decString : List Nat → Option (String × List Nat)
  | [] => none
  | n :: rest =>
    if rest.length < n then none
    else some (String.mk ((rest.take n).map Char.ofNat), rest.drop n)

theorem map_ofNat_map_toNat (l : List Char) :
    (l.map Char.toNat).map Char.ofNat = l := by
  induction l with
  | nil => rfl
  | cons c t ih => simp [ih, Char.ofNat_toNat]

theorem decString_encString (s : String) (rest : List Nat) :
    decString (encString s ++ rest) = some (s, rest) := by
  unfold decString encString
  simp only [List.cons_append]
  have hlen : (s.data.map Char.toNat).length = s.length := by
    rw [List.length_map]
    rfl
  rw [if_neg (by simp [hlen]), List.take_left' hlen, List.drop_left' hlen,
      map_ofNat_map_toNat]

/-- Encode a list of integers as a count prefix followed by sign-folded tokens. -/
def encIntList (l : List Int) : List Nat :=
  l.length :: l.map encInt

/-- Decode a count-prefixed list of integers from the front of a payload. -/
def decIntList : List Nat → Option (List Int × List Nat)
  | [] => none
  | n :: rest =>
    if rest.length < n then none
    else some ((rest.take n).map decInt, rest.drop n)

theorem map_decInt_map_encInt (l : List Int) :
    (l.map encInt).map decInt = l := by
  induction l with
  | nil => rfl
  | cons x t ih => simp [ih, decInt_encInt]

theorem decIntList_encIntList (l : List Int) (rest : List Nat) :
    decIntList (encIntList l ++ rest) = some (l, rest) := by
  unfold decIntList encIntList
  simp only [List.cons_append]
  have hlen : (l.map encInt).length = l.length := by simp
  rw [if_neg (by simp [hlen]), List.take_left' hlen, List.drop_left' hlen,
      map_decInt_map_encInt]

/-- Encode a list of natural numbers as a count prefix followed by the elements. -/
def encNatList (l : List Nat) : List Nat :=
  l.length :: l

/-- Decode a count-prefixed list of naturals from the front of a payload. -/
def decNatList : List Nat → Option (List Nat × List Nat)
  | [] => none
  | n :: rest =>
    if rest.length < n then none
    else some (rest.take n, rest.drop n)

theorem decNatList_encNatList (l : List Nat) (rest : List Nat) :
    decNatList (encNatList l ++ rest) = some (l, rest) := by
  unfold decNatList encNatList
  simp only [List.cons_append]
  rw [if_neg (by simp), List.take_left' rfl, List.drop_left' rfl]

/-! ## Message framing (§4.1)

Modelled from the spec: the module `tangos.parallel_tasks.pynbody_server`
defining `Message`, the registered request/response types and
`Message.interpret_and_deserialize` is not in the source tree.  Each
concrete message type registers a unique small integer tag; `serialize`
produces a byte payload and `interpret_and_deserialize` resolves the tag
to a constructor, failing (`none`, the `ProtocolError` case) on an
unregistered tag or a payload that does not match the expected
structure. -/

/-- Modelled from the spec: `ObjectSpecification` identifies a sub-object
by finder id and catalogue offset plus an optional object-type tag;
an immutable value with structural equality. -/
structure ObjectSpecification where
  finder_id : Nat
  finder_offset : Nat
  object_typetag : String
deriving DecidableEq

/-- Wire encoding of an `ObjectSpecification`. -/
def ObjectSpecification.enc (o : ObjectSpecification) : List Nat :=
  o.finder_id :: o.finder_offset :: encString o.object_typetag

/-- Wire decoding of an `ObjectSpecification` from the front of a payload. -/
def ObjectSpecification.dec : List Nat → Option (ObjectSpecification × List Nat)
  | fid :: foff :: rest =>
    match decString rest with
    | some (tt, rest2) => some (⟨fid, foff, tt⟩, rest2)
    | none => none
  | _ => none

theorem ObjectSpecification.dec_enc (o : ObjectSpecification) (rest : List Nat) :
    ObjectSpecification.dec (o.enc ++ rest) = some (o, rest) := by
  unfold ObjectSpecification.dec ObjectSpecification.enc
  simp [decString_encString]

/-- Modelled from the spec: the registered message types of the
snapshot-serving protocol (requests and responses exercised by the test
suite: snapshot load/confirm/release, array fetch, index-list query). -/
inductive Message where
  | RequestLoadPynbodySnapshot (path : String)
  | ConfirmLoadPynbodySnapshot (timestep_id : Nat)
  | ReleasePynbodySnapshot
  | RequestPynbodyArray (filter_or_object_spec : ObjectSpecification) (name : String)
  | ReturnPynbodyArray (contents : List Int)
  | RequestIndexList (filter_or_object_spec : ObjectSpecification)
  | ReturnIndexList (indices : List Nat)
deriving DecidableEq

/-- The unique small-integer tag registered for each concrete message type;
the tag-to-type mapping is injective by construction. -/
def Message.tag : Message → Nat
  | .RequestLoadPynbodySnapshot _ => 1
  | .ConfirmLoadPynbodySnapshot _ => 2
  | .ReleasePynbodySnapshot => 3
  | .RequestPynbodyArray _ _ => 4
  | .ReturnPynbodyArray _ => 5
  | .RequestIndexList _ => 6
  | .ReturnIndexList _ => 7

/-- `serialize(msg) -> bytes`: field-by-field wire encoding of a message. -/
def Message.serialize : Message → List Nat
  | .RequestLoadPynbodySnapshot path => encString path
  | .ConfirmLoadPynbodySnapshot ts => [ts]
  | .ReleasePynbodySnapshot => []
  | .RequestPynbodyArray spec name => spec.enc ++ encString name
  | .ReturnPynbodyArray contents => encIntList contents
  | .RequestIndexList spec => spec.enc
  | .ReturnIndexList idx => encNatList idx

/-- `interpret_and_deserialize(tag, sender_rank, bytes)`: resolve the tag to
the registered constructor and decode the payload; `none` (the
`ProtocolError` outcome) when the tag is unregistered or the payload does
not match the expected structure. -/
def Message.interpret_and_deserialize (tg : Nat) (_sender_rank : Nat)
    (payload : List Nat) : Option Message :=
  match tg with
  | 1 =>
    match decString payload with
    | some (path, []) => some (.RequestLoadPynbodySnapshot path)
    | _ => none
  | 2 =>
    match payload with
    | [ts] => some (.ConfirmLoadPynbodySnapshot ts)
    | _ => none
  | 3 =>
    match payload with
    | [] => some .ReleasePynbodySnapshot
    | _ => none
  | 4 =>
    match ObjectSpecification.dec payload with
    | some (spec, rest) =>
      match decString rest with
      | some (name, []) => some (.RequestPynbodyArray spec name)
      | _ => none
    | none => none
  | 5 =>
    match decIntList payload with
    | some (l, []) => some (.ReturnPynbodyArray l)
    | _ => none
  | 6 =>
    match ObjectSpecification.dec payload with
    | some (spec, []) => some (.RequestIndexList spec)
    | _ => none
  | 7 =>
    match decNatList payload with
    | some (l, []) => some (.ReturnIndexList l)
    | _ => none
  | _ => none

theorem decString_encString_nil (s : String) :
    decString (encString s) = some (s, []) := by
  simpa using decString_encString s []

theorem decIntList_encIntList_nil (l : List Int) :
    decIntList (encIntList l) = some (l, []) := by
  simpa using decIntList_encIntList l []

theorem decNatList_encNatList_nil (l : List Nat) :
    decNatList (encNatList l) = some (l, []) := by
  simpa using decNatList_encNatList l []

theorem ObjectSpecification.dec_enc_nil (o : ObjectSpecification) :
    ObjectSpecification.dec o.enc = some (o, []) := by
  simpa using ObjectSpecification.dec_enc o []

/-- C1: for every registered message type and every message `m` of that
type, deserializing the serialized form under `m`'s tag reconstructs a
message of the same concrete type whose fields are structurally equal to
`m`'s: `interpret_and_deserialize (tag m) r (serialize m) = some m` for
every sender rank `r`. -/
theorem message_serialize_roundtrip (m : Message) (r : Nat) :
    Message.interpret_and_deserialize m.tag r m.serialize = some m := by
  cases m with
  | RequestLoadPynbodySnapshot path =>
    simp [Message.tag, Message.serialize, Message.interpret_and_deserialize,
          decString_encString_nil]
  | ConfirmLoadPynbodySnapshot ts =>
    simp [Message.tag, Message.serialize, Message.interpret_and_deserialize]
  | ReleasePynbodySnapshot =>
    simp [Message.tag, Message.serialize, Message.interpret_and_deserialize]
  | RequestPynbodyArray spec name =>
    simp [Message.tag, Message.serialize, Message.interpret_and_deserialize,
          ObjectSpecification.dec_enc, decString_encString_nil]
  | ReturnPynbodyArray contents =>
    simp [Message.tag, Message.serialize, Message.interpret_and_deserialize,
          decIntList_encIntList_nil]
  | RequestIndexList spec =>
    simp [Message.tag, Message.serialize, Message.interpret_and_deserialize,
          ObjectSpecification.dec_enc_nil]
  | ReturnIndexList idx =>
    simp [Message.tag, Message.serialize, Message.interpret_and_deserialize,
          decNatList_encNatList_nil]

/-! ## Portable object catalogue (§4.5)

Modelled from the spec: the module
`tangos.parallel_tasks.pynbody_server.portable_object_catalogue` is not in
the source tree.  The catalogue is built once from a dense array mapping
particle index to object id and stored in that compact dense form; its wire
format is a single payload of element count plus the dense id array. -/

/-- Modelled from the spec: `PortableObjectCatalogue`, a compact serializable
mapping from particle index to object id. -/
structure PortableObjectCatalogue where
  object_id_per_particle : List Nat
deriving DecidableEq

/-- Walk the dense id array and the query index array in lockstep, keeping
the index entries whose id entry equals the requested object id. -/
def get_object_dense (ids : List Nat) (id : Nat) (index_array : List Nat) : List Nat :=
  match ids, index_array with
  | oid :: oids, x :: xs =>
    if oid = id then x :: get_object_dense oids id xs else get_object_dense oids id xs
  | _, _ => []

/-- `get_object(id, index_array)`: the entries of `index_array` belonging to
object `id`. -/
def PortableObjectCatalogue.get_object (cat : PortableObjectCatalogue)
    (id : Nat) (index_array : List Nat) : List Nat :=
  get_object_dense cat.object_id_per_particle id index_array

/-- Catalogue wire format: element count plus the dense id array. -/
def PortableObjectCatalogue.serialize (cat : PortableObjectCatalogue) : List Nat :=
  encNatList cat.object_id_per_particle

/-- Reconstruct a catalogue from a single payload. -/
def PortableObjectCatalogue.deserialize (payload : List Nat) :
    Option PortableObjectCatalogue :=
  match decNatList payload with
  | some (ids, []) => some ⟨ids⟩
  | _ => none

/-- `receive(src)` after `send(dest)`: the transport hands the serialized
payload to the receiver unchanged, which reconstructs the catalogue. -/
def PortableObjectCatalogue.receive_after_send (cat : PortableObjectCatalogue) :
    Option PortableObjectCatalogue :=
  PortableObjectCatalogue.deserialize cat.serialize

/-- The spec's description of the lookup result: the subsequence of
`index_array` whose corresponding dense-array entries equal `id`, in the
same relative order as `index_array`. -/
def matching_subsequence (ids : List Nat) (id : Nat) (index_array : List Nat) : List Nat :=
  ((ids.zip index_array).filter (fun p => p.1 == id)).map Prod.snd

theorem get_object_dense_eq_matching (ids : List Nat) (id : Nat)
    (index_array : List Nat) :
    get_object_dense ids id index_array = matching_subsequence ids id index_array := by
  induction ids generalizing index_array with
  | nil => cases index_array <;> simp [get_object_dense, matching_subsequence]
  | cons oid oids ih =>
    cases index_array with
    | nil => simp [get_object_dense, matching_subsequence]
    | cons x xs =>
      by_cases h : oid = id <;>
        simp [get_object_dense, matching_subsequence, h, ih xs,
              List.filter_cons]

/-- C2: for every dense particle-to-object id array, every object id `k`
and every `index_array`, `get_object k index_array` is exactly the
subsequence of `index_array` whose corresponding id entries equal `k`, in
the same relative order; and the catalogue reconstructed by `receive` after
`send` answers `get_object` identically to the original for every id. -/
theorem portable_catalogue_get_object_correct (ids : List Nat) (k : Nat)
    (index_array : List Nat) :
    (PortableObjectCatalogue.mk ids).get_object k index_array
        = matching_subsequence ids k index_array
    ∧ ∃ cat2, (PortableObjectCatalogue.mk ids).receive_after_send = some cat2
        ∧ ∀ k2 idx2, cat2.get_object k2 idx2
              = (PortableObjectCatalogue.mk ids).get_object k2 idx2 := by
  refine ⟨get_object_dense_eq_matching ids k index_array, ⟨ids⟩, ?_, ?_⟩
  · simp [PortableObjectCatalogue.receive_after_send,
          PortableObjectCatalogue.serialize, PortableObjectCatalogue.deserialize,
          decNatList_encNatList_nil]
  · intro k2 idx2
    rfl

/-! ## Shared array transfer (§4.2)

Modelled from the spec: the module
`tangos.parallel_tasks.pynbody_server.transfer_array` is not in the source
tree.  A shared-memory segment becomes an entry of a name-indexed store of
flat integer data; a (possibly strided) array is a view carrying segment
name, element offset, stride and length.  `send_array` in shared mode
serializes only the handle metadata; `receive_array` opens the named
segment and reconstructs a view honoring the transmitted shape and
strides, without copying the data. -/

/-- The shared-memory store: named segments of flat data, threaded
explicitly through every operation. -/
def SharedStore : Type := String → Option (List Int)

/-- Look a segment up by name. -/
def SharedStore.lookup (st : SharedStore) (name : String) : Option (List Int) :=
  st name

/-- A one-dimensional strided view into a named shared segment: the shared
array wire format metadata (segment name, offset, stride, element count). -/
structure ArrayView where
  seg : String
  offset : Nat
  stride : Nat
  len : Nat
deriving DecidableEq

/-- Read element `i` of a view through the store. -/
def ArrayView.read (st : SharedStore) (v : ArrayView) (i : Nat) : Option Int :=
  match st v.seg with
  | some d => d.get? (v.offset + i * v.stride)
  | none => none

/-- All elements of a view, in order. -/
def ArrayView.contents (st : SharedStore) (v : ArrayView) : List (Option Int) :=
  (List.range v.len).map (fun i => v.read st i)

/-- `len(range(a, b, s))` for a non-negative step. -/
def pyRangeLen (a b s : Nat) : Nat := (b - a + s - 1) / s

/-- The index sequence of the Python slice `a:b:s`. -/
def pyRange (a b s : Nat) : List Nat :=
  (List.range (pyRangeLen a b s)).map (fun i => a + i * s)

/-- The strided slice `v[a:b:s]` of a view: same segment, shifted offset,
multiplied stride, slice length (with the stop bound clamped to the view
length, as numpy does). -/
def ArrayView.slice (v : ArrayView) (a b s : Nat) : ArrayView :=
  ⟨v.seg, v.offset + a * v.stride, s * v.stride, pyRangeLen a (min b v.len) s⟩

/-- A transfer payload: either the full contents by value (non-shared
mode: dtype, shape, raw bytes) or the shared handle metadata only. -/
inductive TransferPayload where
  | inline (data : List (Option Int))
  | handle (seg : String) (offset stride len : Nat)
deriving DecidableEq

/-- `send_array(array, dest_rank, shared)`: in shared mode send only the
segment name and offset/stride/shape metadata; otherwise serialize the
full contents. -/
def send_array (st : SharedStore) (v : ArrayView) (_dest : Nat) (shared : Bool) :
    TransferPayload :=
  if shared then .handle v.seg v.offset v.stride v.len
  else .inline (v.contents st)

/-- `receive_array` in shared mode: open the named segment and reconstruct
a view honoring the transmitted metadata; `none` (the `TransferError`
outcome) when the segment is not found. -/
def receive_array (st : SharedStore) (p : TransferPayload) : Option ArrayView :=
  match p with
  | .handle seg offset stride len =>
    match st seg with
    | some _ => some ⟨seg, offset, stride, len⟩
    | none => none
  | .inline _ => none

/-- The slice `A[a:b:s]` computed locally: the elements of `A` at the
Python slice indices. -/
def localSliceContents (st : SharedStore) (A : ArrayView) (a b s : Nat) :
    List (Option Int) :=
  (pyRange a (min b A.len) s).map (fun j => A.read st j)

theorem slice_read_eq (st : SharedStore) (A : ArrayView) (a s i : Nat) (b : Nat) :
    (A.slice a b s).read st i = A.read st (a + i * s) := by
  unfold ArrayView.read ArrayView.slice
  simp only
  have harith : A.offset + a * A.stride + i * (s * A.stride)
      = A.offset + (a + i * s) * A.stride := by ring
  rw [harith]

/-- C3: receiving the result of `send_array(A[a:b:s], dest, shared := true)`
yields a view that is exactly the slice `A[a:b:s]` — same segment (no copy
of the backing data), stride multiplied by `s` — whose length is
`len(range(a,b,s))` and whose elements equal the slice computed locally. -/
theorem shared_slice_transfer (st : SharedStore) (A : ArrayView)
    (dest a b s : Nat) (_hs : 0 < s) (hb : b ≤ A.len)
    (hseg : (SharedStore.lookup st A.seg).isSome = true) :
    ∃ v2, receive_array st (send_array st (A.slice a b s) dest true) = some v2
      ∧ v2 = A.slice a b s
      ∧ v2.len = (pyRange a b s).length
      ∧ ArrayView.contents st v2 = localSliceContents st A a b s
      ∧ v2.seg = A.seg ∧ v2.stride = s * A.stride := by
  obtain ⟨d, hd⟩ := Option.isSome_iff_exists.mp hseg
  refine ⟨A.slice a b s, ?_, rfl, ?_, ?_, rfl, rfl⟩
  · unfold receive_array send_array
    simp only [if_pos]
    have hseg2 : st (A.slice a b s).seg = some d := hd
    rw [hseg2]
  · unfold ArrayView.slice pyRange
    simp [Nat.min_eq_left hb]
  · unfold ArrayView.contents localSliceContents pyRange ArrayView.slice
    simp only [List.map_map]
    apply List.map_congr_left
    intro i _
    exact slice_read_eq st A a s i (min b A.len)

/-! ## Shared-memory write visibility (§4.4)

Modelled from the spec: a process holds an array either as a reference
into a shared segment (the literal promoted / whole-array shared object,
or the `shared_mem_view`) or as a local copy (a pre-promotion per-family
array, or anything fetched in non-shared mode).  Writing through a shared
reference mutates the backing segment in the store; writing into a local
copy touches only the copy. -/

/-- Write `x` at the linear position of element `i` of view `v`,
mutating the backing segment of the store. -/
def SharedStore.write (st : SharedStore) (v : ArrayView) (i : Nat) (x : Int) :
    SharedStore :=
  fun name =>
    if name = v.seg then (st name).map (fun d => d.set (v.offset + i * v.stride) x)
    else st name

/-- An array value held by a process: a live reference into a shared
segment, or a local copy of the data. -/
inductive ArrayValue where
  | sharedRef (v : ArrayView)
  | localCopy (data : List Int)
deriving DecidableEq

/-- Read element `i` of a held value: a shared reference reads through the
store, a local copy reads its own data. -/
def ArrayValue.readVal (st : SharedStore) : ArrayValue → Nat → Option Int
  | .sharedRef v, i => v.read st i
  | .localCopy d, i => d.get? i

/-- Write element `i` of a held value: a shared reference mutates the
backing segment; a local copy mutates only the copy, leaving the store
untouched. -/
def ArrayValue.writeVal (st : SharedStore) : ArrayValue → Nat → Int → SharedStore × ArrayValue
  | .sharedRef v, i, x => (st.write v i x, .sharedRef v)
  | .localCopy d, i, x => (st, .localCopy (d.set i x))

/-- The whole-array shared object over a segment holding `d`. -/
def wholeArrayOf (seg : String) (d : List Int) : ArrayView :=
  ⟨seg, 0, 1, d.length⟩

/-- C4: writing through the literal promoted / whole shared-array object
mutates the backing shared segment and is observed by every process
reading that segment through its own handle; a local copy obtained before
promotion does not observe the write; and a write into a local copy (a
pre-promotion per-family array or anything fetched in non-shared mode)
mutates only the copy and leaves the store — hence every other process's
reads — unchanged. -/
theorem shared_write_visibility (st : SharedStore) (seg : String) (d : List Int)
    (i : Nat) (x : Int) (hseg : SharedStore.lookup st seg = some d)
    (hi : i < d.length) (dq : List Int) (j : Nat) :
    ((ArrayValue.writeVal st (.sharedRef (wholeArrayOf seg d)) i x).1.lookup seg
        = some (d.set i x))
    ∧ (ArrayValue.readVal (ArrayValue.writeVal st (.sharedRef (wholeArrayOf seg d)) i x).1
          (.sharedRef (wholeArrayOf seg d)) i = some x)
    ∧ (ArrayValue.readVal (ArrayValue.writeVal st (.sharedRef (wholeArrayOf seg d)) i x).1
          (.localCopy dq) j = ArrayValue.readVal st (.localCopy dq) j)
    ∧ ((ArrayValue.writeVal st (.localCopy dq) j x).1 = st)
    ∧ (∀ av : ArrayValue, ∀ k : Nat,
        ArrayValue.readVal (ArrayValue.writeVal st (.localCopy dq) j x).1 av k
          = ArrayValue.readVal st av k)
    ∧ (j < dq.length →
        ArrayValue.readVal st (ArrayValue.writeVal st (.localCopy dq) j x).2 j = some x) := by
  have hlook : (ArrayValue.writeVal st (.sharedRef (wholeArrayOf seg d)) i x).1.lookup seg
      = some (d.set i x) := by
    show SharedStore.write st (wholeArrayOf seg d) i x seg = some (d.set i x)
    unfold SharedStore.write wholeArrayOf
    simp only [if_pos rfl]
    rw [show st seg = some d from hseg]
    simp [Nat.mul_one]
  refine ⟨hlook, ?_, rfl, rfl, fun av k => rfl, ?_⟩
  · show ArrayView.read _ (wholeArrayOf seg d) i = some x
    unfold ArrayView.read
    rw [show (ArrayValue.writeVal st (.sharedRef (wholeArrayOf seg d)) i x).1
          (wholeArrayOf seg d).seg = some (d.set i x) from hlook]
    simp only [wholeArrayOf, Nat.mul_one, Nat.zero_add]
    simp [List.get?_eq_getElem?, List.getElem?_set_self, hi]
  · intro hj
    show (dq.set j x).get? j = some x
    simp [List.get?_eq_getElem?, List.getElem?_set_self, hj]

/-- A concrete demonstration store holding one ten-element segment. -/
def demoStore : SharedStore :=
  fun name => if name = "seg0" then some [0, 1, 2, 3, 4, 5, 6, 7, 8, 9] else none

/-- A whole-array view over the demonstration segment. -/
def demoView : ArrayView := ⟨"seg0", 0, 1, 10⟩

/-- Witness for C3 at the test's slice `[1:7:2]` of a ten-element array. -/
theorem shared_slice_transfer_witness :
    ∃ v2, receive_array demoStore (send_array demoStore (demoView.slice 1 7 2) 0 true)
        = some v2
      ∧ v2 = demoView.slice 1 7 2
      ∧ v2.len = (pyRange 1 7 2).length
      ∧ ArrayView.contents demoStore v2 = localSliceContents demoStore demoView 1 7 2
      ∧ v2.seg = demoView.seg ∧ v2.stride = 2 * demoView.stride :=
  shared_slice_transfer demoStore demoView 0 1 7 2 (by decide) (by decide) (by decide)

/-- Witness for C4 at a concrete write into the demonstration segment. -/
theorem shared_write_visibility_witness :
    ((ArrayValue.writeVal demoStore
        (.sharedRef (wholeArrayOf "seg0" [0, 1, 2, 3, 4, 5, 6, 7, 8, 9])) 2 100).1.lookup "seg0"
        = some ([0, 1, 2, 3, 4, 5, 6, 7, 8, 9].set 2 100))
    ∧ (ArrayValue.readVal (ArrayValue.writeVal demoStore
          (.sharedRef (wholeArrayOf "seg0" [0, 1, 2, 3, 4, 5, 6, 7, 8, 9])) 2 100).1
          (.sharedRef (wholeArrayOf "seg0" [0, 1, 2, 3, 4, 5, 6, 7, 8, 9])) 2 = some 100)
    ∧ (ArrayValue.readVal (ArrayValue.writeVal demoStore
          (.sharedRef (wholeArrayOf "seg0" [0, 1, 2, 3, 4, 5, 6, 7, 8, 9])) 2 100).1
          (.localCopy [5, 5, 5]) 1 = ArrayValue.readVal demoStore (.localCopy [5, 5, 5]) 1)
    ∧ ((ArrayValue.writeVal demoStore (.localCopy [5, 5, 5]) 1 100).1 = demoStore)
    ∧ (∀ av : ArrayValue, ∀ k : Nat,
        ArrayValue.readVal (ArrayValue.writeVal demoStore (.localCopy [5, 5, 5]) 1 100).1 av k
          = ArrayValue.readVal demoStore av k)
    ∧ (1 < [5, 5, 5].length →
        ArrayValue.readVal demoStore
          (ArrayValue.writeVal demoStore (.localCopy [5, 5, 5]) 1 100).2 1 = some 100) :=
  shared_write_visibility demoStore "seg0" [0, 1, 2, 3, 4, 5, 6, 7, 8, 9] 2 100
    (by decide) (by decide) [5, 5, 5] 1

/-! ## Remote view: promotion policy (§4.4)

Modelled from the spec: the client-side lazy view of
`tangos.parallel_tasks.pynbody_server` is not in the source tree.  For one
logical array name, the server holds per-family segments; the client's
view state records which families have already been fetched and counts
every transport send/receive it performs (one fetch = one send + one
receive).  A whole-dataset access composes the existing family segments in
family order, fetching only the families still missing. -/

/-- The server side of one logical array: the ordered family tags and the
per-family contents. -/
structure ServerArrays where
  families : List String
  famArray : String → List Int

/-- Client-side state for one logical array name: the per-family segments
fetched so far, and the running count of transport send/receive calls. -/
structure ViewState where
  loaded : List (String × List Int)
  transport_ops : Nat
deriving DecidableEq

/-- Fetch one family's segment from the server unless it is already held;
a fetch performs one transport send and one receive. -/
def fetch_family (sd : ServerArrays) (vs : ViewState) (f : String) : ViewState :=
  if (List.lookup f vs.loaded).isSome then vs
  else ⟨vs.loaded ++ [(f, sd.famArray f)], vs.transport_ops + 2⟩

/-- First access to the array on one family: fetch that family only and
return its segment. -/
def access_family (sd : ServerArrays) (vs : ViewState) (f : String) :
    List Int × ViewState :=
  let vs2 := fetch_family sd vs f
  ((List.lookup f vs2.loaded).getD [], vs2)

/-- Whole-dataset access: fetch the families still missing (none when all
are already loaded), then compose the held family segments in family
order. -/
def access_whole (sd : ServerArrays) (vs : ViewState) : List Int × ViewState :=
  let vs2 := sd.families.foldl (fun acc f => fetch_family sd acc f) vs
  ((sd.families.map (fun f => (List.lookup f vs2.loaded).getD [])).flatten, vs2)

/-- The same array produced by an equivalent local load: the per-family
contents composed in family order. -/
def local_whole (sd : ServerArrays) : List Int :=
  (sd.families.map sd.famArray).flatten

theorem foldl_fetch_of_all_loaded (sd : ServerArrays) (vs : ViewState)
    (fams : List String)
    (h : ∀ f ∈ fams, (List.lookup f vs.loaded).isSome = true) :
    fams.foldl (fun acc f => fetch_family sd acc f) vs = vs := by
  induction fams with
  | nil => rfl
  | cons f t ih =>
    have hf : fetch_family sd vs f = vs := by
      unfold fetch_family
      rw [if_pos (h f (by simp))]
    simp only [List.foldl_cons, hf]
    exact ih (fun g hg => h g (by simp [hg]))

/-- C5: when all per-family segments of an array are already loaded, a
whole-dataset access performs no transport send or receive calls — the
view state (including the transport counter) is unchanged — and the
composed result equals the array obtained from an equivalent local
load. -/
theorem whole_access_composes_without_transport (sd : ServerArrays) (vs : ViewState)
    (h : ∀ f ∈ sd.families, List.lookup f vs.loaded = some (sd.famArray f)) :
    access_whole sd vs = (local_whole sd, vs) := by
  have hsome : ∀ f ∈ sd.families, (List.lookup f vs.loaded).isSome = true := by
    intro f hf
    rw [h f hf]
    rfl
  unfold access_whole local_whole
  rw [foldl_fetch_of_all_loaded sd vs sd.families hsome]
  simp only
  have hmap : sd.families.map (fun f => (List.lookup f vs.loaded).getD [])
      = sd.families.map sd.famArray := by
    apply List.map_congr_left
    intro f hf
    rw [h f hf]
    rfl
  rw [hmap]

/-- A concrete three-family server-side array. -/
def demoServerArrays : ServerArrays :=
  ⟨["dm", "gas", "star"],
    fun f => if f = "dm" then [1, 2] else if f = "gas" then [3] else [4, 5]⟩

/-- A view state in which all three families are already loaded. -/
def demoViewState : ViewState :=
  ⟨[("dm", [1, 2]), ("gas", [3]), ("star", [4, 5])], 6⟩

/-- Witness for C5: with all three families loaded, the whole-array access
composes them with no further transport operations. -/
theorem whole_access_composes_without_transport_witness :
    access_whole demoServerArrays demoViewState
      = (local_whole demoServerArrays, demoViewState) :=
  whole_access_composes_without_transport demoServerArrays demoViewState (by decide)

/-! ## Remote view: derived arrays are evaluated on the client (§4.4)

Modelled from the spec: derived (computed, not stored) arrays must be
evaluated locally on the client, never on the server, even when the
underlying inputs were fetched from the server.  The client view holds its
fetched (and possibly locally mutated) copies of stored arrays; a derived
access applies the derivation rule to the client's current copy of the
input and performs no transport operation of its own. -/

/-- The server's snapshot for stored-array access: array name to contents
for the arrays present on disk. -/
structure ServerSnapshot where
  stored : String → Option (List Int)

/-- Client-side remote view state: the stored arrays fetched so far
(client-local copies, possibly mutated) and the transport op counter. -/
structure RemoteViewState where
  local_arrays : List (String × List Int)
  transport_ops : Nat
deriving DecidableEq

/-- A derivation rule for a derived array: the stored input it depends on
and the pure function computing it (e.g. the radius computed from the
positions). -/
structure DerivedRule where
  input : String
  compute : List Int → List Int

/-- Access a stored array on the remote view: return the client's local
copy if already fetched, otherwise fetch it from the server (one send and
one receive); `none` is the `KeyError` outcome. -/
def get_stored (sv : ServerSnapshot) (vs : RemoteViewState) (name : String) :
    Option (List Int) × RemoteViewState :=
  match List.lookup name vs.local_arrays with
  | some d => (some d, vs)
  | none =>
    match sv.stored name with
    | some d => (some d, ⟨vs.local_arrays ++ [(name, d)], vs.transport_ops + 2⟩)
    | none => (none, vs)

/-- Access a derived array on the remote view: evaluate the derivation
rule locally on the client's current copy of the input array. -/
def get_derived (sv : ServerSnapshot) (vs : RemoteViewState) (r : DerivedRule) :
    Option (List Int) × RemoteViewState :=
  match get_stored sv vs r.input with
  | (some d, vs2) => (some (r.compute d), vs2)
  | (none, vs2) => (none, vs2)

/-- Mutate the client's local copy of one stored array in place (e.g.
subtracting a centre offset from the positions). -/
def mutate_local (vs : RemoteViewState) (name : String) (f : List Int → List Int) :
    RemoteViewState :=
  ⟨vs.local_arrays.map (fun p => if p.1 = name then (p.1, f p.2) else p),
    vs.transport_ops⟩

/-- The value an equivalent local load produces for the derived array after
applying the same mutation to the same input. -/
def local_derived_after_mutation (sv : ServerSnapshot) (r : DerivedRule)
    (f : List Int → List Int) : Option (List Int) :=
  (sv.stored r.input).map (fun d => r.compute (f d))

/-- C6: after the client fetches the input array and locally mutates it,
accessing the derived array evaluates the rule on the client's mutated
copy — yielding exactly the value an equivalent local load with the same
mutation produces — and performs no transport send or receive calls of
its own (the server is never involved in the derivation). -/
theorem derived_evaluation_is_local (sv : ServerSnapshot) (r : DerivedRule)
    (f : List Int → List Int) (d : List Int) (h : sv.stored r.input = some d) :
    (get_derived sv (mutate_local (get_stored sv ⟨[], 0⟩ r.input).2 r.input f) r).1
        = local_derived_after_mutation sv r f
    ∧ (get_derived sv (mutate_local (get_stored sv ⟨[], 0⟩ r.input).2 r.input f) r).2.transport_ops
        = (mutate_local (get_stored sv ⟨[], 0⟩ r.input).2 r.input f).transport_ops := by
  have hfetch : (get_stored sv ⟨[], 0⟩ r.input).2
      = ⟨[(r.input, d)], 2⟩ := by
    unfold get_stored
    rw [show List.lookup r.input (⟨[], 0⟩ : RemoteViewState).local_arrays = none from rfl]
    simp only [h]
    simp
  rw [hfetch]
  have hmut : mutate_local ⟨[(r.input, d)], 2⟩ r.input f
      = ⟨[(r.input, f d)], 2⟩ := by
    unfold mutate_local
    simp
  rw [hmut]
  have hlook : List.lookup r.input ([(r.input, f d)] : List (String × List Int))
      = some (f d) := by
    simp [List.lookup_cons]
  constructor
  · unfold get_derived get_stored
    rw [hlook]
    unfold local_derived_after_mutation
    rw [h]
    rfl
  · unfold get_derived get_stored
    rw [hlook]

/-- A concrete server snapshot holding a three-element position array. -/
def demoSnapshot : ServerSnapshot :=
  ⟨fun name => if name = "pos" then some [3, -4, 12] else none⟩

/-- The radius-like derived rule: elementwise absolute value of the
positions. -/
def demoRule : DerivedRule := ⟨"pos", fun d => d.map (fun v => v * v)⟩

/-- Witness for C6: derive after fetching and locally shifting the
positions by one. -/
theorem derived_evaluation_is_local_witness :
    (get_derived demoSnapshot
        (mutate_local (get_stored demoSnapshot ⟨[], 0⟩ demoRule.input).2 demoRule.input
          (fun d => d.map (fun v => v - 1))) demoRule).1
        = local_derived_after_mutation demoSnapshot demoRule (fun d => d.map (fun v => v - 1))
    ∧ (get_derived demoSnapshot
        (mutate_local (get_stored demoSnapshot ⟨[], 0⟩ demoRule.input).2 demoRule.input
          (fun d => d.map (fun v => v - 1))) demoRule).2.transport_ops
        = (mutate_local (get_stored demoSnapshot ⟨[], 0⟩ demoRule.input).2 demoRule.input
            (fun d => d.map (fun v => v - 1))).transport_ops :=
  derived_evaluation_is_local demoSnapshot demoRule (fun d => d.map (fun v => v - 1))
    [3, -4, 12] rfl

/-! ## Snapshot queue (§4.3)

Modelled from the spec: the module
`tangos.parallel_tasks.pynbody_server.snapshot_queue` is not in the source
tree.  For a fixed (loader, path) key the server keeps a state machine
`Unloaded → Loading → Loaded(refcount > 0) → Unloaded`, invokes the
external loader at most once per load cycle, counts requesters by
refcount, and frees the dataset when the refcount reaches zero.  The
counters record the number of underlying loader invocations and of
underlying unloads. -/

/-- The per-key state of the snapshot queue. -/
inductive SnapshotState where
  | Unloaded
  | Loading
  | Loaded (refcount : Nat) (dataset : List Int)
deriving DecidableEq

/-- The snapshot queue for one (loader, path) key, with instrumentation
counters for the underlying load and unload operations. -/
structure SnapshotQueue where
  state : SnapshotState
  load_count : Nat
  unload_count : Nat
deriving DecidableEq

/-- The reply to a load request: a confirmation, or the loader's error
propagated unchanged. -/
inductive LoadReply where
  | confirm
  | failure (err : String)
deriving DecidableEq

/-- `RequestLoad(loader, path)`: if already `Loaded`, increment the
refcount and reply with a confirmation (no re-load); otherwise invoke the
external loader — on success enter `Loaded` with refcount 1, on `OSError`
propagate the error unchanged and do not enter `Loaded`. -/
def request_load (loader : Except String (List Int)) (q : SnapshotQueue) :
    LoadReply × SnapshotQueue :=
  match q.state with
  | .Loaded n ds => (.confirm, { q with state := .Loaded (n + 1) ds })
  | _ =>
    match loader with
    | .ok ds =>
      (.confirm,
        { state := .Loaded 1 ds, load_count := q.load_count + 1,
          unload_count := q.unload_count })
    | .error e => (.failure e, { q with state := .Unloaded })

/-- `Release`: decrement the refcount; at refcount zero transition to
`Unloaded` and free the in-memory dataset. -/
def release (q : SnapshotQueue) : SnapshotQueue :=
  match q.state with
  | .Loaded (n + 1) ds =>
    if n = 0 then
      { state := .Unloaded, load_count := q.load_count,
        unload_count := q.unload_count + 1 }
    else { q with state := .Loaded n ds }
  | _ => q

/-- Modelled from the spec: opening a `RemoteSnapshotConnection` issues a
load request and surfaces a load failure at the point of open. -/
def open_remote_snapshot_connection (loader : Except String (List Int))
    (q : SnapshotQueue) : Except String SnapshotQueue :=
  match request_load loader q with
  | (.confirm, q2) => .ok q2
  | (.failure e, _) => .error e

/-- C7: when the loader cannot find the dataset, the load request
propagates the loader's `OSError` unchanged to the requester, opening a
`RemoteSnapshotConnection` surfaces that same failure at the point of
open, and the queue does not enter the `Loaded` state for that key. -/
theorem oserror_propagated_not_loaded (e : String) (q : SnapshotQueue)
    (hq : q.state = .Unloaded) :
    (request_load (.error e) q).1 = .failure e
    ∧ (∀ n ds, (request_load (.error e) q).2.state ≠ .Loaded n ds)
    ∧ open_remote_snapshot_connection (.error e) q = .error e := by
  have hreq : request_load (.error e) q = (.failure e, { q with state := .Unloaded }) := by
    unfold request_load
    rw [hq]
  refine ⟨by rw [hreq], ?_, ?_⟩
  · intro n ds
    rw [hreq]
    simp
  · unfold open_remote_snapshot_connection
    rw [hreq]

/-- A fresh queue for one key: nothing loaded, counters at zero. -/
def freshQueue : SnapshotQueue := ⟨.Unloaded, 0, 0⟩

/-- Witness for C7: requesting a missing dataset on a fresh queue. -/
theorem oserror_propagated_not_loaded_witness :
    (request_load (.error "no such file") freshQueue).1 = .failure "no such file"
    ∧ (∀ n ds, (request_load (.error "no such file") freshQueue).2.state ≠ .Loaded n ds)
    ∧ open_remote_snapshot_connection (.error "no such file") freshQueue
        = .error "no such file" :=
  oserror_propagated_not_loaded "no such file" freshQueue rfl

/-- Iterate `RequestLoad` for the same key. -/
def do_loads (loader : Except String (List Int)) : Nat → SnapshotQueue → SnapshotQueue
  | 0, q => q
  | n + 1, q => do_loads loader n (request_load loader q).2

/-- Iterate `Release` for the same key. -/
def do_releases : Nat → SnapshotQueue → SnapshotQueue
  | 0, q => q
  | n + 1, q => do_releases n (release q)

theorem do_loads_from_loaded (ds : List Int) (j m : Nat) (q : SnapshotQueue)
    (hq : q.state = .Loaded m ds) :
    do_loads (.ok ds) j q
      = { state := .Loaded (m + j) ds, load_count := q.load_count,
          unload_count := q.unload_count } := by
  induction j generalizing m q with
  | zero =>
    cases q
    simp only [do_loads]
    simp_all
  | succ n ih =>
    have hstep : (request_load (.ok ds) q).2
        = { q with state := .Loaded (m + 1) ds } := by
      unfold request_load
      rw [hq]
    simp only [do_loads, hstep]
    rw [ih (m + 1) _ rfl]
    rw [show m + 1 + n = m + (n + 1) from by omega]

theorem do_releases_from_loaded (ds : List Int) (k m : Nat) (q : SnapshotQueue)
    (hk : k < m) (hq : q.state = .Loaded m ds) :
    do_releases k q
      = { state := .Loaded (m - k) ds, load_count := q.load_count,
          unload_count := q.unload_count } := by
  induction k generalizing m q with
  | zero =>
    cases q
    simp only [do_releases]
    simp_all
  | succ n ih =>
    obtain ⟨m2, rfl⟩ : ∃ m2, m = m2 + 1 := ⟨m - 1, by omega⟩
    obtain ⟨st, lc, uc⟩ := q
    simp only at hq
    subst hq
    have hstep : release ⟨.Loaded (m2 + 1) ds, lc, uc⟩
        = ⟨.Loaded m2 ds, lc, uc⟩ := by
      show (if m2 = 0 then
              { state := SnapshotState.Unloaded, load_count := lc,
                unload_count := uc + 1 }
            else { state := SnapshotState.Loaded m2 ds, load_count := lc,
                   unload_count := uc })
          = ({ state := .Loaded m2 ds, load_count := lc, unload_count := uc }
              : SnapshotQueue)
      rw [if_neg (by omega)]
    simp only [do_releases, hstep]
    rw [ih m2 _ (by omega) rfl]
    rw [show m2 + 1 - (n + 1) = m2 - n from by omega]

theorem do_releases_succ (n : Nat) (q : SnapshotQueue) :
    do_releases (n + 1) q = release (do_releases n q) := by
  induction n generalizing q with
  | zero => rfl
  | succ m ih =>
    show do_releases (m + 1) (release q) = _
    rw [ih (release q)]
    rfl

/-- C8: for every `N ≥ 1`, `N` load requests for the same (loader, path)
followed by `N` releases invoke the underlying loader exactly once and
unload exactly once; every load after the first only increments the
refcount (state `Loaded k` after `k` loads) and replies with a
confirmation, the queue stays `Loaded` while the refcount is positive, and
the transition to `Unloaded` happens exactly at the `N`-th release. -/
theorem refcount_load_release_balanced (N : Nat) (ds : List Int) (hN : 1 ≤ N) :
    (∀ k, 1 ≤ k → k ≤ N →
        (do_loads (.ok ds) k freshQueue).state = .Loaded k ds
        ∧ (do_loads (.ok ds) k freshQueue).load_count = 1)
    ∧ (∀ k, k ≤ N → (request_load (.ok ds) (do_loads (.ok ds) k freshQueue)).1 = .confirm)
    ∧ (∀ k, k < N →
        (do_releases k (do_loads (.ok ds) N freshQueue)).state = .Loaded (N - k) ds
        ∧ (do_releases k (do_loads (.ok ds) N freshQueue)).unload_count = 0)
    ∧ do_releases N (do_loads (.ok ds) N freshQueue)
        = { state := .Unloaded, load_count := 1, unload_count := 1 } := by
  have hfirst : (request_load (.ok ds) freshQueue).2
      = { state := .Loaded 1 ds, load_count := 1, unload_count := 0 } := rfl
  have hloads : ∀ k, 1 ≤ k → do_loads (.ok ds) k freshQueue
      = { state := .Loaded k ds, load_count := 1, unload_count := 0 } := by
    intro k hk
    obtain ⟨k2, rfl⟩ : ∃ k2, k = k2 + 1 := ⟨k - 1, by omega⟩
    show do_loads (.ok ds) k2 (request_load (.ok ds) freshQueue).2 = _
    rw [hfirst, do_loads_from_loaded ds k2 1 _ rfl]
    rw [show 1 + k2 = k2 + 1 from by omega]
  refine ⟨fun k hk1 _ => by rw [hloads k hk1]; exact ⟨rfl, rfl⟩, ?_, ?_, ?_⟩
  · intro k _
    rcases Nat.eq_zero_or_pos k with h0 | hpos
    · subst h0
      rfl
    · rw [hloads k hpos]
      rfl
  · intro k hk
    rw [hloads N hN, do_releases_from_loaded ds k N _ hk rfl]
    exact ⟨rfl, rfl⟩
  · rw [hloads N hN]
    obtain ⟨N2, rfl⟩ : ∃ N2, N = N2 + 1 := ⟨N - 1, by omega⟩
    have hmid := do_releases_from_loaded ds N2 (N2 + 1)
      { state := .Loaded (N2 + 1) ds, load_count := 1, unload_count := 0 }
      (by omega) rfl
    rw [do_releases_succ, hmid]
    rw [show N2 + 1 - N2 = 1 from by omega]
    rfl

/-- Witness for C8 at `N = 3` with a two-element dataset. -/
theorem refcount_load_release_balanced_witness :
    (∀ k, 1 ≤ k → k ≤ 3 →
        (do_loads (.ok [7, 8]) k freshQueue).state = .Loaded k [7, 8]
        ∧ (do_loads (.ok [7, 8]) k freshQueue).load_count = 1)
    ∧ (∀ k, k ≤ 3 → (request_load (.ok [7, 8]) (do_loads (.ok [7, 8]) k freshQueue)).1 = .confirm)
    ∧ (∀ k, k < 3 →
        (do_releases k (do_loads (.ok [7, 8]) 3 freshQueue)).state = .Loaded (3 - k) [7, 8]
        ∧ (do_releases k (do_loads (.ok [7, 8]) 3 freshQueue)).unload_count = 0)
    ∧ do_releases 3 (do_loads (.ok [7, 8]) 3 freshQueue)
        = { state := .Unloaded, load_count := 1, unload_count := 1 } :=
  refcount_load_release_balanced 3 [7, 8] (by decide)

/-! ## Index-list queries (§4.4)

Modelled from the spec: resolving an object's particle membership.  A
dataset is the dense finder-id-per-particle array; the index list of an
object is the list of particle positions belonging to it.  The server
computes the index list on its loaded dataset and ships it back through
the message framing; the local reference computes the same function on an
equivalent local load of the same path. -/

/-- Resolve an object's particle membership on a dataset: the particle
positions whose finder id equals the specification's. -/
def get_index_list (dataset : List Nat) (spec : ObjectSpecification) : List Nat :=
  get_object_dense dataset spec.finder_id (List.range dataset.length)

/-- The server side of an index-list query: compute the membership on the
dataset loaded for `path` and wrap it in a `ReturnIndexList` reply. -/
def server_handle_index_list (load : String → List Nat) (path : String)
    (spec : ObjectSpecification) : Message :=
  .ReturnIndexList (get_index_list (load path) spec)

/-- The client side: the reply travels serialized through the framing and
is deserialized under its tag on arrival. -/
def remote_get_index_list (load : String → List Nat) (path : String)
    (spec : ObjectSpecification) : Option (List Nat) :=
  let reply := server_handle_index_list load path spec
  match Message.interpret_and_deserialize reply.tag 0 reply.serialize with
  | some (.ReturnIndexList l) => some l
  | _ => none

/-- The same query computed locally on an equivalent local load. -/
def local_get_index_list (load : String → List Nat) (path : String)
    (spec : ObjectSpecification) : List Nat :=
  get_index_list (load path) spec

/-- C9: for every loader, path and object specification, the index list
returned by the remote index-list query equals, element for element and in
the same order, the index list computed locally from an equivalent local
load of the same dataset and object. -/
theorem remote_index_list_eq_local (load : String → List Nat) (path : String)
    (spec : ObjectSpecification) :
    remote_get_index_list load path spec = some (local_get_index_list load path spec) := by
  unfold remote_get_index_list server_handle_index_list local_get_index_list
  simp only [Message.tag, Message.serialize, Message.interpret_and_deserialize,
             decNatList_encNatList_nil]

/-! ## Shared-memory mode: component access fetches the whole array

Modelled from the spec and the shared-memory test: in shared-memory server
mode, a first access to a one-dimensional component of a multidimensional
stored array on a family (e.g. `vx`, the x component of the
three-dimensional `vel` array) transfers the entire multidimensional array
for that family, so the full array name is subsequently present in the
family view's keys and no further fetch is needed.  Rows of a
multidimensional array are `List Int`. -/

/-- Map a one-dimensional component name to the underlying
multidimensional array name and its column. -/
def component_of (name : String) : Option (String × Nat) :=
  if name = "vx" then some ("vel", 0)
  else if name = "vy" then some ("vel", 1)
  else if name = "vz" then some ("vel", 2)
  else if name = "x" then some ("pos", 0)
  else if name = "y" then some ("pos", 1)
  else if name = "z" then some ("pos", 2)
  else none

/-- Client-side state of one family's view: the whole multidimensional
arrays fetched so far, keyed by their full names, and the transport op
counter. -/
structure FamilyViewState where
  arrays : List (String × List (List Int))
  transport_ops : Nat
deriving DecidableEq

/-- The array names present on the family view. -/
def FamilyViewState.keys (vs : FamilyViewState) : List String :=
  vs.arrays.map Prod.fst

/-- Fetch the whole multidimensional array `base` for this family from the
server (one send and one receive), unless it is already held. -/
def fetch_whole_base (server : String → Option (List (List Int)))
    (vs : FamilyViewState) (base : String) : FamilyViewState :=
  if (List.lookup base vs.arrays).isSome then vs
  else
    match server base with
    | some arr => ⟨vs.arrays ++ [(base, arr)], vs.transport_ops + 2⟩
    | none => vs

/-- Access a one-dimensional component on the family view in shared-memory
mode: materialize the whole underlying multidimensional array, then view
its column. -/
def access_component (server : String → Option (List (List Int)))
    (vs : FamilyViewState) (name : String) :
    Option (List Int) × FamilyViewState :=
  match component_of name with
  | some (base, col) =>
    let vs2 := fetch_whole_base server vs base
    ((List.lookup base vs2.arrays).map (fun arr => arr.map (fun row => row.getD col 0)),
      vs2)
  | none => (none, vs)

theorem lookup_append_right_of_none {β : Type} (l1 l2 : List (String × β))
    (k : String) (h : List.lookup k l1 = none) :
    List.lookup k (l1 ++ l2) = List.lookup k l2 := by
  induction l1 with
  | nil => rfl
  | cons p t ih =>
    obtain ⟨a, b⟩ := p
    by_cases hk : k = a
    · subst hk
      rw [List.lookup_cons, beq_self_eq_true] at h
      simp at h
    · have hne := beq_eq_false_iff_ne.mpr hk
      rw [List.lookup_cons, hne] at h
      simp only [List.cons_append]
      rw [List.lookup_cons, hne]
      exact ih h

/-- C10: a first access to a component slice (any `name` resolving to a
multidimensional `base` array) on a family in shared-memory mode
materializes the entire multidimensional array for that family: the full
array name is afterwards a key of the family view holding the whole
server-side array, the component returned is its column, and any further
access to a component of the same base array performs no additional
transport operations. -/
theorem component_access_materializes_whole_array
    (server : String → Option (List (List Int))) (vs : FamilyViewState)
    (name base : String) (col : Nat) (arr : List (List Int))
    (hcomp : component_of name = some (base, col))
    (hserver : server base = some arr)
    (hnew : List.lookup base vs.arrays = none) :
    ((access_component server vs name).1
        = some (arr.map (fun row => row.getD col 0)))
    ∧ (List.lookup base (access_component server vs name).2.arrays = some arr)
    ∧ (base ∈ (access_component server vs name).2.keys)
    ∧ (∀ name2 col2, component_of name2 = some (base, col2) →
        (access_component server (access_component server vs name).2 name2).2
          = (access_component server vs name).2) := by
  have hfetch : fetch_whole_base server vs base
      = ⟨vs.arrays ++ [(base, arr)], vs.transport_ops + 2⟩ := by
    unfold fetch_whole_base
    rw [hnew]
    simp only [Option.isSome_none, Bool.false_eq_true, if_false, hserver]
  have hlook2 : List.lookup base (vs.arrays ++ [(base, arr)]) = some arr := by
    rw [lookup_append_right_of_none vs.arrays [(base, arr)] base hnew]
    simp
  have hstep : access_component server vs name
      = (some (arr.map (fun row => row.getD col 0)),
          ⟨vs.arrays ++ [(base, arr)], vs.transport_ops + 2⟩) := by
    unfold access_component
    rw [hcomp]
    simp only [hfetch]
    rw [hlook2]
    rfl
  refine ⟨by rw [hstep], by simp only [hstep]; exact hlook2, ?_, ?_⟩
  · simp only [hstep]
    unfold FamilyViewState.keys
    simp
  · intro name2 col2 hcomp2
    simp only [hstep]
    have hre : fetch_whole_base server
        ⟨vs.arrays ++ [(base, arr)], vs.transport_ops + 2⟩ base
        = ⟨vs.arrays ++ [(base, arr)], vs.transport_ops + 2⟩ := by
      unfold fetch_whole_base
      rw [show List.lookup base
            ((⟨vs.arrays ++ [(base, arr)], vs.transport_ops + 2⟩ :
              FamilyViewState).arrays) = some arr from hlook2]
      rfl
    unfold access_component
    rw [hcomp2]
    simp only [hre]

/-- A concrete server holding a two-row, three-column velocity array. -/
def demoFamilyServer : String → Option (List (List Int)) :=
  fun n => if n = "vel" then some [[1, 2, 3], [4, 5, 6]] else none

/-- Witness for C10: first access to `vx` on an empty family view. -/
theorem component_access_materializes_whole_array_witness :
    ((access_component demoFamilyServer ⟨[], 0⟩ "vx").1
        = some ([[1, 2, 3], [4, 5, 6]].map (fun row => row.getD 0 0)))
    ∧ (List.lookup "vel" (access_component demoFamilyServer ⟨[], 0⟩ "vx").2.arrays
        = some [[1, 2, 3], [4, 5, 6]])
    ∧ ("vel" ∈ (access_component demoFamilyServer ⟨[], 0⟩ "vx").2.keys)
    ∧ (∀ name2 col2, component_of name2 = some ("vel", col2) →
        (access_component demoFamilyServer
            (access_component demoFamilyServer ⟨[], 0⟩ "vx").2 name2).2
          = (access_component demoFamilyServer ⟨[], 0⟩ "vx").2) :=
  component_access_materializes_whole_array demoFamilyServer ⟨[], 0⟩ "vx" "vel" 0
    [[1, 2, 3], [4, 5, 6]] rfl rfl rfl

end Tangos
